import Mathlib

/-!
# Verification of the y-cli turn-resolution and tool-invocation control loop

Shallow embedding of `src/chat/chat_manager.py` (class `ChatManager`): the
recursive turn controller (`process_user_message` / `process_assistant_message`),
the confirmation gate (`get_user_confirmation`), and the persistence hook
(`persist_chat`), together with the data model they operate on.

External collaborators (provider, tool executor, MCP config lookup, the
directive extractor) are modelled as oracle fields of an `Env` record, and the
interactive prompt's answers as a stream (a list) carried in the state.
The recursion of the source is unbounded; the embedding adds a fuel parameter
and a `done` flag that is `false` exactly when the run was truncated by fuel
exhaustion (or by the prompt loop running out of answers, which models the
source blocking forever on input).
-/

namespace YCli

/-- Serialized tool arguments (an opaque payload in this embedding). -/
abbrev Args := String

/-- One typed part of structured message content. The source inspects
`part.get('type')`: a `'text'` part carries text, a tool-use part carries the
directive payload, and any other type is opaque. -/
inductive Part where
  | text (s : String)
  | toolUse (payload : String)
  | other (ptype : String) (payload : String)
deriving DecidableEq, Repr

/-- Message content: either a plain string or an ordered sequence of typed
parts (the source branches on `isinstance(content, str)` / `isinstance(content, list)`). -/
inductive Content where
  | str (s : String)
  | parts (ps : List Part)
deriving DecidableEq, Repr

/-- One transcript entry (`chat.models.Message`): role, content, and the
optional tool-invocation metadata set by `process_assistant_message`. -/
structure Message where
  role : String
  content : Content
  server : Option String
  tool : Option String
  arguments : Option Args
deriving DecidableEq, Repr

/-- Modelled from the spec: `create_message` (`chat/utils/message_utils.py`,
not under `src/`) builds a Message with the given role and content; the
`server` / `tool` / `arguments` metadata are those passed by the caller
(`none` when, as in the source's default, no metadata keyword is given). -/
def create_message (role : String) (content : Content)
    (server : Option String) (tool : Option String) (arguments : Option Args) :
    Message :=
  ⟨role, content, server, tool, arguments⟩

/-- Is this part a tool-use part? -/
def isToolUse : Part → Bool
  | Part.toolUse _ => true
  | _ => false

/-- Modelled from the spec: `contains_tool_use` (`chat/utils/tool_utils.py`,
not under `src/`): true iff content is a sequence containing at least one
tool-use-typed part. -/
def contains_tool_use : Content → Bool
  | Content.str _ => false
  | Content.parts ps => ps.any isToolUse

/-- Modelled from the spec: `split_content` (`chat/utils/tool_utils.py`, not
under `src/`): partitions the sequence into non-tool-use parts (`plain`, first
component) and tool-use parts (`directive`, second component). -/
def split_content : Content → Content × Content
  | Content.str s => (Content.str s, Content.parts [])
  | Content.parts ps =>
      (Content.parts (ps.filter fun p => !isToolUse p),
       Content.parts (ps.filter isToolUse))

/-- Number of tool-use parts in a content value. -/
def toolUseCount : Content → Nat
  | Content.str _ => 0
  | Content.parts ps => (ps.filter isToolUse).length

/-- The text the source stores as `last_printed_text_output`: the whole string
when content is a plain string (`isinstance(content, str)` branch), otherwise
the text of the first `'text'`-typed part of the sequence, `none` when the
sequence has no text part (`next(..., None)`). -/
def firstText : List Part → Option String
  | [] => none
  | Part.text s :: _ => some s
  | _ :: rest => firstText rest

/-- Text content of a message content value, as read by the
`last_printed_text_output` updates in `chat_manager.py`. -/
def textOf : Content → Option String
  | Content.str s => some s
  | Content.parts ps => firstText ps

/-- Python truthiness of an optional string: `None` and `""` are falsy. -/
def truthyStr : Option String → Bool
  | none => false
  | some s => !s.isEmpty

/-- MCP server configuration as consulted by the gate:
`mcp_service.get_config(server_name)` returns an object that may or may not
have an `auto_confirm` attribute (`hasattr` check in the source); `none` here
models a config object without that attribute. -/
structure ServerConfig where
  auto_confirm : Option (List String)
deriving DecidableEq, Repr

/-- The environment of external collaborators of the core loop.
`provider` models `self.provider.call_chat_completions` (spec section 6),
indexed by the session's running provider-call count so that successive calls
may answer differently; it returns the assistant message and the optional
external correlation id. `execute_tool` models
`self.mcp_manager.execute_tool`; its result payload becomes the content of the
tool-result user message. `extract` models `extract_mcp_tool_use`
(`mcp_server/mcp_manager.py`, not under `src/`): modelled from the spec, it
parses `(server, tool, arguments)` out of the directive content and fails with
`none` on a malformed directive. `get_config` models `mcp_service.get_config`,
and `mcp_servers` the truthiness of `self.bot_config.mcp_servers`. -/
structure Env where
  mcp_servers : Bool
  get_config : String → Option ServerConfig
  extract : Content → Option (String × String × Args)
  provider : List Message → Nat → Message × Option String
  execute_tool : String → String → Args → Content

/-- Python `str.lower()` restricted to its ASCII behaviour (the recognized
answers are all ASCII). -/
def lowerStr (s : String) : String := String.mk (s.data.map Char.toLower)

/-- Python `str.strip()`: drop leading and trailing whitespace. -/
def stripStr (s : String) : String :=
  String.mk
    (((s.data.dropWhile Char.isWhitespace).reverse.dropWhile
        Char.isWhitespace).reverse)

/-- `response.strip().lower()` of the source's confirmation loop. -/
def normalizeAnswer (s : String) : String := lowerStr (stripStr s)

/-- The interactive confirmation loop of `get_user_confirmation` (lines
107-113): read one raw answer per iteration, strip and lower-case it, return
`true` on `y`/`yes`, `false` on `n`/`no`, and re-prompt otherwise. The result
is `(answer, number of prompt invocations, remaining answer stream)`;
an exhausted stream yields `none` (the source would block forever waiting for
more input). -/
def promptLoop : List String → Option Bool × Nat × List String
  | [] => (none, 0, [])
  | a :: rest =>
    let r := normalizeAnswer a
    if r == "y" || r == "yes" then (some true, 1, rest)
    else if r == "n" || r == "no" then (some false, 1, rest)
    else
      let res := promptLoop rest
      (res.1, res.2.1 + 1, res.2.2)

/-- `ChatManager.get_user_confirmation` (lines 86-113). The `content`
argument is only displayed by the source, never inspected. Auto-confirm
requires, in source order: truthy `server_name`, truthy `tool_name`, truthy
`bot_config.mcp_servers`, a config object for the server, an `auto_confirm`
attribute on it, and membership of the tool name; otherwise the interactive
`promptLoop` runs on the answer stream. -/
def get_user_confirmation (env : Env) (answers : List String) (_content : Content)
    (server_name : Option String) (tool_name : Option String) :
    Option Bool × Nat × List String :=
  if truthyStr server_name && truthyStr tool_name && env.mcp_servers then
    match env.get_config (server_name.getD "") with
    | some server_config =>
        match server_config.auto_confirm with
        | some acs =>
            if acs.contains (tool_name.getD "") then (some true, 0, answers)
            else promptLoop answers
        | none => promptLoop answers
    | none => promptLoop answers
  else promptLoop answers

/-- The mutable session state of `ChatManager` that the core loop touches:
the transcript (`self.messages`), the pinned correlation id
(`self.external_id`), the last displayed text
(`self.last_printed_text_output`), the remaining interactive answer stream
(models stdin), and the running count of provider calls (used to index the
provider oracle). `pins` is ghost instrumentation: for each provider call,
in order, it records the pair (correlation id returned by that call, stored
correlation id right after the pinning step of lines 126-127), so that the
evolution of the pinned id is observable in theorems. -/
structure St where
  messages : List Message
  external_id : Option String
  last_printed_text_output : Option String
  answers : List String
  calls : Nat
  pins : List (Option String × Option String)
deriving DecidableEq, Repr

/-- Observable events of a run, in order of occurrence: a message appended to
the transcript, a provider call, one interactive prompt invocation, a tool
execution, and a `persist_chat` commit. -/
inductive Ev where
  | append (m : Message)
  | provider
  | prompt
  | exec (server : String) (tool : String) (arguments : Args)
  | persist
deriving DecidableEq, Repr

/-- Lines 116-123 of `process_user_message`: append the user message and store
its text content as `last_printed_text_output` (the whole string, or the first
text part of a sequence). -/
def stepAppendUser (st : St) (u : Message) : St :=
  { st with
      messages := st.messages ++ [u]
      last_printed_text_output := textOf u.content }

/-- Line 126-127 of `process_user_message`:
`if external_id: self.external_id = external_id` — a truthy (non-`None`,
non-empty) returned id overwrites the stored one, a falsy one leaves it. -/
def pinExternal (old : Option String) (ext : Option String) : Option String :=
  if truthyStr ext then ext else old

/-- Line 125-127 of `process_user_message`: call the provider on the current
transcript and apply the pinning rule to the returned correlation id.
Returns the updated state and the assistant message. The ghost `pins` field
records the stored id after the pinning step. -/
def stepProvider (env : Env) (st : St) : St × Message :=
  let pr := env.provider st.messages st.calls
  ({ st with
      calls := st.calls + 1
      external_id := pinExternal st.external_id pr.2
      pins := st.pins ++ [(pr.2, pinExternal st.external_id pr.2)] },
   pr.1)

/-- Result of one `process_assistant_message` invocation. `next = some u`
means the source would now tail-call `process_user_message u` (line 183);
the recursion itself is performed by `processUser` below, so that the mutual
recursion of the source is expressed with the fuel consumed in one place.
`blocked = true` models the confirmation loop running out of input (the
source would block forever on `input()`). -/
structure ARes where
  st : St
  trace : List Ev
  next : Option Message
  blocked : Bool
deriving Repr

/-- The fixed cancellation notice of line 170. -/
def cancelNotice : String := "Tool execution cancelled by user."

/-- `ChatManager.process_assistant_message` (lines 131-183), minus the final
recursive call, which is returned in the `next` field:
if the content has no tool use, append the message verbatim and update the
last text (lines 136-144); otherwise split the content, try to extract the
directive — aborting silently on failure (lines 146-152) — rewrite the
assistant message with the plain content and metadata and append it (lines
153-166), run the confirmation gate (line 169), and either append the
cancellation user message (lines 170-174) or execute the tool and build the
tool-result user message for the recursive call (lines 176-183). -/
def processAssistant (env : Env) (st : St) (a : Message) : ARes :=
  if !contains_tool_use a.content then
    ⟨{ st with
        messages := st.messages ++ [a]
        last_printed_text_output := textOf a.content },
     [Ev.append a], none, false⟩
  else
    let pc := split_content a.content
    match env.extract pc.2 with
    | none => ⟨st, [], none, false⟩
    | some (server_name, tool_name, arguments) =>
      let a2 := { a with
                    server := some server_name
                    tool := some tool_name
                    arguments := some arguments
                    content := pc.1 }
      let st1 := { st with
                    messages := st.messages ++ [a2]
                    last_printed_text_output := textOf pc.1 }
      let g := get_user_confirmation env st1.answers pc.2
                 (some server_name) (some tool_name)
      let st2 := { st1 with answers := g.2.2 }
      let evs := Ev.append a2 :: List.replicate g.2.1 Ev.prompt
      match g.1 with
      | none => ⟨st2, evs, none, true⟩
      | some false =>
        let cancel := create_message "user" (Content.str cancelNotice)
                        none none none
        ⟨{ st2 with messages := st2.messages ++ [cancel] },
         evs ++ [Ev.append cancel], none, false⟩
      | some true =>
        let tool_results := env.execute_tool server_name tool_name arguments
        let u2 := create_message "user" tool_results
                    (some server_name) (some tool_name) (some arguments)
        ⟨st2, evs ++ [Ev.exec server_name tool_name arguments], some u2, false⟩

/-- Result of a (possibly truncated) `process_user_message` run. `done` is
`false` exactly when the run was cut off by fuel exhaustion or a blocked
prompt; in a truncated run the pending `persist_chat` calls of the still-open
frames never happen, matching the source where those frames never return. -/
structure RunRes where
  st : St
  trace : List Ev
  done : Bool
deriving Repr

/-- `ChatManager.process_user_message` (lines 115-129): append the user
message, call the provider and pin the correlation id, process the assistant
response (recursing, fuel permitting, when it requested a tool round), and
finally `persist_chat` (line 129) once the processing of this frame has fully
resolved. -/
def processUser (env : Env) : Nat → St → Message → RunRes
  | fuel, st, u =>
    let st1 := stepAppendUser st u
    let pa := stepProvider env st1
    let r := processAssistant env pa.1 pa.2
    let tr0 := Ev.append u :: Ev.provider :: r.trace
    if r.blocked then ⟨r.st, tr0, false⟩
    else
      match r.next with
      | none => ⟨r.st, tr0 ++ [Ev.persist], true⟩
      | some u2 =>
        match fuel with
        | 0 => ⟨r.st, tr0, false⟩
        | fuel' + 1 =>
          let r2 := processUser env fuel' r.st u2
          ⟨r2.st, tr0 ++ r2.trace ++ (if r2.done then [Ev.persist] else []),
           r2.done⟩

/-- Is this event a `persist_chat` commit? -/
def isPersistEv : Ev → Bool
  | Ev.persist => true
  | _ => false

/-- Is this event a tool execution? -/
def isExecEv : Ev → Bool
  | Ev.exec _ _ _ => true
  | _ => false

/-- Is this event a provider call? -/
def isProviderEv : Ev → Bool
  | Ev.provider => true
  | _ => false

/-- Is this event a message append? -/
def isAppendEv : Ev → Bool
  | Ev.append _ => true
  | _ => false

/-- Number of `persist_chat` commits in a trace. -/
def persistCount (tr : List Ev) : Nat := (tr.filter isPersistEv).length

/-- Number of tool executions in a trace. -/
def execCount (tr : List Ev) : Nat := (tr.filter isExecEv).length

/-- Number of provider calls in a trace. -/
def providerCount (tr : List Ev) : Nat := (tr.filter isProviderEv).length

/-- Number of appended messages in a trace. -/
def appendCount (tr : List Ev) : Nat := (tr.filter isAppendEv).length

end YCli

namespace YCli

/-! ## Derived message constructors (lines 154-160, 170-172, 179-180) -/

/-- The assistant message after the in-place edit of lines 154-160: tool
metadata attached, content rewritten to the plain (non-tool-use) half of the
split. -/
def rewriteDirective (a : Message) (server_name tool_name : String)
    (arguments : Args) : Message :=
  { a with
      server := some server_name
      tool := some tool_name
      arguments := some arguments
      content := (split_content a.content).1 }

/-- The synthetic cancellation user message of lines 170-173. -/
def cancelMsg : Message :=
  create_message "user" (Content.str cancelNotice) none none none

/-- The tool-result user message of lines 177-180. -/
def toolResultMsg (env : Env) (server_name tool_name : String)
    (arguments : Args) : Message :=
  create_message "user" (env.execute_tool server_name tool_name arguments)
    (some server_name) (some tool_name) (some arguments)

/-! ## Path lemmas for `processAssistant` -/

lemma pa_noTool (env : Env) (st : St) (a : Message)
    (h : contains_tool_use a.content = false) :
    processAssistant env st a =
      ⟨{ st with
          messages := st.messages ++ [a]
          last_printed_text_output := textOf a.content },
       [Ev.append a], none, false⟩ := by
  simp [processAssistant, h]

lemma pa_extractFail (env : Env) (st : St) (a : Message)
    (h : contains_tool_use a.content = true)
    (hx : env.extract (split_content a.content).2 = none) :
    processAssistant env st a = ⟨st, [], none, false⟩ := by
  simp [processAssistant, h, hx]

lemma pa_blocked (env : Env) (st : St) (a : Message)
    (server_name tool_name : String) (arguments : Args) (k : Nat)
    (rest : List String)
    (h : contains_tool_use a.content = true)
    (hx : env.extract (split_content a.content).2
            = some (server_name, tool_name, arguments))
    (hg : get_user_confirmation env st.answers (split_content a.content).2
            (some server_name) (some tool_name) = (none, k, rest)) :
    processAssistant env st a =
      ⟨{ st with
          messages := st.messages ++ [rewriteDirective a server_name tool_name arguments]
          last_printed_text_output := textOf (split_content a.content).1
          answers := rest },
       Ev.append (rewriteDirective a server_name tool_name arguments)
         :: List.replicate k Ev.prompt,
       none, true⟩ := by
  simp [processAssistant, h, hx, hg, rewriteDirective]

lemma pa_denied (env : Env) (st : St) (a : Message)
    (server_name tool_name : String) (arguments : Args) (k : Nat)
    (rest : List String)
    (h : contains_tool_use a.content = true)
    (hx : env.extract (split_content a.content).2
            = some (server_name, tool_name, arguments))
    (hg : get_user_confirmation env st.answers (split_content a.content).2
            (some server_name) (some tool_name) = (some false, k, rest)) :
    processAssistant env st a =
      ⟨{ st with
          messages := st.messages
            ++ [rewriteDirective a server_name tool_name arguments, cancelMsg]
          last_printed_text_output := textOf (split_content a.content).1
          answers := rest },
       Ev.append (rewriteDirective a server_name tool_name arguments)
         :: (List.replicate k Ev.prompt ++ [Ev.append cancelMsg]),
       none, false⟩ := by
  simp [processAssistant, h, hx, hg, rewriteDirective, cancelMsg]

lemma pa_approved (env : Env) (st : St) (a : Message)
    (server_name tool_name : String) (arguments : Args) (k : Nat)
    (rest : List String)
    (h : contains_tool_use a.content = true)
    (hx : env.extract (split_content a.content).2
            = some (server_name, tool_name, arguments))
    (hg : get_user_confirmation env st.answers (split_content a.content).2
            (some server_name) (some tool_name) = (some true, k, rest)) :
    processAssistant env st a =
      ⟨{ st with
          messages := st.messages ++ [rewriteDirective a server_name tool_name arguments]
          last_printed_text_output := textOf (split_content a.content).1
          answers := rest },
       Ev.append (rewriteDirective a server_name tool_name arguments)
         :: (List.replicate k Ev.prompt
              ++ [Ev.exec server_name tool_name arguments]),
       some (toolResultMsg env server_name tool_name arguments), false⟩ := by
  simp [processAssistant, h, hx, hg, rewriteDirective, toolResultMsg]

end YCli

namespace YCli

/-! ## Basic lemmas about `processUser` and event counts -/

lemma processUser_eq (env : Env) (fuel : Nat) (st : St) (u : Message) :
    processUser env fuel st u =
      let st1 := stepAppendUser st u
      let pa := stepProvider env st1
      let r := processAssistant env pa.1 pa.2
      let tr0 := Ev.append u :: Ev.provider :: r.trace
      if r.blocked then ⟨r.st, tr0, false⟩
      else
        match r.next with
        | none => ⟨r.st, tr0 ++ [Ev.persist], true⟩
        | some u2 =>
          match fuel with
          | 0 => ⟨r.st, tr0, false⟩
          | fuel' + 1 =>
            let r2 := processUser env fuel' r.st u2
            ⟨r2.st, tr0 ++ r2.trace ++ (if r2.done then [Ev.persist] else []),
             r2.done⟩ := by
  rw [processUser]

lemma processUser_trace_head (env : Env) (fuel : Nat) (st : St) (u : Message) :
    ∃ rest, (processUser env fuel st u).trace
              = Ev.append u :: Ev.provider :: rest := by
  rw [processUser_eq]
  dsimp only
  split
  · exact ⟨_, rfl⟩
  · split
    · exact ⟨_, rfl⟩
    · split
      · exact ⟨_, rfl⟩
      · exact ⟨_, rfl⟩

lemma persistCount_append (l1 l2 : List Ev) :
    persistCount (l1 ++ l2) = persistCount l1 + persistCount l2 := by
  simp [persistCount]

lemma execCount_append (l1 l2 : List Ev) :
    execCount (l1 ++ l2) = execCount l1 + execCount l2 := by
  simp [execCount]

lemma persistCount_replicate_prompt (k : Nat) :
    persistCount (List.replicate k Ev.prompt) = 0 := by
  simp [persistCount, List.filter_replicate, isPersistEv]

lemma execCount_replicate_prompt (k : Nat) :
    execCount (List.replicate k Ev.prompt) = 0 := by
  simp [execCount, List.filter_replicate, isExecEv]

/-- `process_assistant_message` itself never commits (`persist_chat` is only
reached from `process_user_message`, line 129), executes exactly one tool
when and only when it requests a recursive round, and when blocked on input
requests no round. -/
lemma pa_trace_counts (env : Env) (st : St) (a : Message) :
    persistCount (processAssistant env st a).trace = 0 ∧
    execCount (processAssistant env st a).trace
      = (match (processAssistant env st a).next with
          | some _ => 1 | none => 0) ∧
    ((processAssistant env st a).blocked = true →
      (processAssistant env st a).next = none) := by
  by_cases h : contains_tool_use a.content = true
  · cases hx : env.extract (split_content a.content).2 with
    | none =>
      simp [pa_extractFail env st a h hx, persistCount, execCount]
    | some v =>
      obtain ⟨server_name, tool_name, arguments⟩ := v
      rcases hg : get_user_confirmation env st.answers (split_content a.content).2
          (some server_name) (some tool_name) with ⟨res, k, rest⟩
      match res with
      | none =>
        simp [pa_blocked env st a server_name tool_name arguments k rest h hx hg,
          persistCount, execCount, persistCount_append, execCount_append,
          persistCount_replicate_prompt, execCount_replicate_prompt,
          List.filter_replicate, isPersistEv, isExecEv]
      | some false =>
        simp [pa_denied env st a server_name tool_name arguments k rest h hx hg,
          persistCount, execCount, persistCount_append, execCount_append,
          List.filter_replicate, List.filter_append, isPersistEv, isExecEv]
      | some true =>
        simp [pa_approved env st a server_name tool_name arguments k rest h hx hg,
          persistCount, execCount, persistCount_append, execCount_append,
          List.filter_replicate, List.filter_append, isPersistEv, isExecEv]
  · have h2 : contains_tool_use a.content = false := by
      simpa using h
    simp [pa_noTool env st a h2, persistCount, execCount, isPersistEv, isExecEv]

/-- `process_assistant_message` never touches the correlation id, the
provider-call count, or the ghost pin log. -/
lemma pa_preserves (env : Env) (st : St) (a : Message) :
    (processAssistant env st a).st.pins = st.pins ∧
    (processAssistant env st a).st.external_id = st.external_id ∧
    (processAssistant env st a).st.calls = st.calls := by
  by_cases h : contains_tool_use a.content = true
  · cases hx : env.extract (split_content a.content).2 with
    | none =>
      simp [pa_extractFail env st a h hx]
    | some v =>
      obtain ⟨server_name, tool_name, arguments⟩ := v
      rcases hg : get_user_confirmation env st.answers (split_content a.content).2
          (some server_name) (some tool_name) with ⟨res, k, rest⟩
      match res with
      | none =>
        simp [pa_blocked env st a server_name tool_name arguments k rest h hx hg]
      | some false =>
        simp [pa_denied env st a server_name tool_name arguments k rest h hx hg]
      | some true =>
        simp [pa_approved env st a server_name tool_name arguments k rest h hx hg]
  · have h2 : contains_tool_use a.content = false := by
      simpa using h
    simp [pa_noTool env st a h2]

end YCli

namespace YCli

lemma persistCount_nil : persistCount [] = 0 := rfl

lemma execCount_nil : execCount [] = 0 := rfl

lemma persistCount_cons (e : Ev) (tr : List Ev) :
    persistCount (e :: tr)
      = persistCount tr + (if isPersistEv e = true then 1 else 0) := by
  simp only [persistCount, List.filter_cons]
  split
  · simp
  · simp

lemma execCount_cons (e : Ev) (tr : List Ev) :
    execCount (e :: tr)
      = execCount tr + (if isExecEv e = true then 1 else 0) := by
  simp only [execCount, List.filter_cons]
  split
  · simp
  · simp

/-- Every completed `process_user_message` frame commits exactly once, at the
end of the frame (line 129), after the processing of its assistant response
— including any recursive tool rounds — has resolved. A run therefore ends
in a commit, and its number of commits is one more than its number of tool
executions: one per user message processed (human or synthetic tool-result),
not one per top-level turn. -/
lemma persist_per_frame (env : Env) : ∀ (fuel : Nat) (st : St) (u : Message),
    (processUser env fuel st u).done = true →
    persistCount (processUser env fuel st u).trace
      = execCount (processUser env fuel st u).trace + 1 ∧
    ∃ pre, (processUser env fuel st u).trace = pre ++ [Ev.persist] := by
  intro fuel
  induction fuel with
  | zero =>
    intro st u hdone
    have hc := pa_trace_counts env (stepProvider env (stepAppendUser st u)).1
      (stepProvider env (stepAppendUser st u)).2
    rcases hR : processAssistant env (stepProvider env (stepAppendUser st u)).1
        (stepProvider env (stepAppendUser st u)).2 with ⟨stA, trA, nextA, blA⟩
    rw [hR] at hc
    rw [processUser_eq] at hdone ⊢
    dsimp only at hdone ⊢
    rw [hR] at hdone ⊢
    dsimp only at hdone hc ⊢
    cases blA with
    | true => simp at hdone
    | false =>
      simp only [Bool.false_eq_true, if_false] at hdone ⊢
      cases nextA with
      | none =>
        dsimp only at hdone hc ⊢
        refine ⟨?_, Ev.append u :: Ev.provider :: trA, by simp⟩
        simp only [persistCount_cons, execCount_cons, persistCount_append,
          execCount_append, persistCount_nil, execCount_nil,
          isPersistEv, isExecEv, Bool.false_eq_true, if_true, if_false]
        omega
      | some u2 => simp at hdone
  | succ n ih =>
    intro st u hdone
    have hc := pa_trace_counts env (stepProvider env (stepAppendUser st u)).1
      (stepProvider env (stepAppendUser st u)).2
    rcases hR : processAssistant env (stepProvider env (stepAppendUser st u)).1
        (stepProvider env (stepAppendUser st u)).2 with ⟨stA, trA, nextA, blA⟩
    rw [hR] at hc
    rw [processUser_eq] at hdone ⊢
    dsimp only at hdone ⊢
    rw [hR] at hdone ⊢
    dsimp only at hdone hc ⊢
    cases blA with
    | true => simp at hdone
    | false =>
      simp only [Bool.false_eq_true, if_false] at hdone ⊢
      cases nextA with
      | none =>
        dsimp only at hdone hc ⊢
        refine ⟨?_, Ev.append u :: Ev.provider :: trA, by simp⟩
        simp only [persistCount_cons, execCount_cons, persistCount_append,
          execCount_append, persistCount_nil, execCount_nil,
          isPersistEv, isExecEv, Bool.false_eq_true, if_true, if_false]
        omega
      | some u2 =>
        dsimp only at hdone hc ⊢
        obtain ⟨hcount, pre2, hshape⟩ := ih stA u2 hdone
        rw [hdone]
        simp only [if_true]
        constructor
        · simp only [persistCount_cons, execCount_cons, persistCount_append,
            execCount_append, persistCount_nil, execCount_nil,
            isPersistEv, isExecEv, Bool.false_eq_true, if_true, if_false]
          omega
        · refine ⟨Ev.append u :: Ev.provider
            :: (trA ++ (processUser env n stA u2).trace), by simp⟩

/-! ## Evolution of the pinned correlation id -/

/-- Last element of a list, or the given default when the list is empty. -/
def lastD {α : Type} (p : α) : List α → α
  | [] => p
  | x :: l => lastD x l

lemma lastD_append_singleton {α : Type} (p : α) (l : List α) (x : α) :
    lastD p (l ++ [x]) = x := by
  induction l generalizing p with
  | nil => rfl
  | cons y l ih => exact ih y

/-- The stored correlation id after a sequence of recorded provider calls,
starting from `p0`: the stored component of the last record. -/
def storedAfter (p0 : Option String)
    (l : List (Option String × Option String)) : Option String :=
  lastD p0 (l.map Prod.snd)

/-- Chain property of the ghost pin log: at every recorded provider call the
stored id after the call is exactly `pinExternal` (lines 126-127) of the
stored id before the call and the id the call returned — a truthy returned
id overwrites the store (even when a different id was already pinned), a
falsy one leaves it unchanged. -/
def pinChainOk : Option String → List (Option String × Option String) → Bool
  | _, [] => true
  | prev, e :: rest => (e.2 == pinExternal prev e.1) && pinChainOk e.2 rest

lemma storedAfter_snoc (p0 : Option String)
    (l : List (Option String × Option String))
    (q : Option String × Option String) :
    storedAfter p0 (l ++ [q]) = q.2 := by
  simp only [storedAfter, List.map_append, List.map_cons, List.map_nil]
  exact lastD_append_singleton p0 _ q.2

lemma pinChainOk_snoc (p0 : Option String)
    (l : List (Option String × Option String))
    (q : Option String × Option String) :
    pinChainOk p0 (l ++ [q])
      = (pinChainOk p0 l && (q.2 == pinExternal (storedAfter p0 l) q.1)) := by
  induction l generalizing p0 with
  | nil => simp [pinChainOk, storedAfter, lastD]
  | cons x l ih => simp [pinChainOk, storedAfter, lastD, ih, Bool.and_assoc]

/-- Run-level invariant of `process_user_message`: the stored correlation id
always equals the last recorded pin, and the pin log satisfies
`pinChainOk` — the stored id changes only to truthy values and is left
unchanged by falsy provider returns. -/
lemma pins_inv (env : Env) : ∀ (fuel : Nat) (st : St) (u : Message)
    (p0 : Option String),
    pinChainOk p0 st.pins = true → st.external_id = storedAfter p0 st.pins →
    pinChainOk p0 (processUser env fuel st u).st.pins = true ∧
    (processUser env fuel st u).st.external_id
      = storedAfter p0 (processUser env fuel st u).st.pins := by
  intro fuel
  induction fuel with
  | zero =>
    intro st u p0 hchain hlast
    have hpres := pa_preserves env (stepProvider env (stepAppendUser st u)).1
      (stepProvider env (stepAppendUser st u)).2
    rcases hR : processAssistant env (stepProvider env (stepAppendUser st u)).1
        (stepProvider env (stepAppendUser st u)).2 with ⟨stA, trA, nextA, blA⟩
    rw [hR] at hpres
    have hpins : stA.pins = st.pins
        ++ [((env.provider (stepAppendUser st u).messages st.calls).2,
             pinExternal st.external_id
               (env.provider (stepAppendUser st u).messages st.calls).2)] := by
      simpa [stepProvider, stepAppendUser] using hpres.1
    have hext : stA.external_id = pinExternal st.external_id
        (env.provider (stepAppendUser st u).messages st.calls).2 := by
      simpa [stepProvider, stepAppendUser] using hpres.2.1
    have hchainA : pinChainOk p0 stA.pins = true := by
      rw [hpins, pinChainOk_snoc, hchain]
      rw [← hlast]
      simp
    have hlastA : stA.external_id = storedAfter p0 stA.pins := by
      rw [hpins, storedAfter_snoc, hext]
    rw [processUser_eq]
    dsimp only
    rw [hR]
    dsimp only
    cases blA with
    | true => exact ⟨hchainA, hlastA⟩
    | false =>
      simp only [Bool.false_eq_true, if_false]
      cases nextA with
      | none => exact ⟨hchainA, hlastA⟩
      | some u2 => exact ⟨hchainA, hlastA⟩
  | succ n ih =>
    intro st u p0 hchain hlast
    have hpres := pa_preserves env (stepProvider env (stepAppendUser st u)).1
      (stepProvider env (stepAppendUser st u)).2
    rcases hR : processAssistant env (stepProvider env (stepAppendUser st u)).1
        (stepProvider env (stepAppendUser st u)).2 with ⟨stA, trA, nextA, blA⟩
    rw [hR] at hpres
    have hpins : stA.pins = st.pins
        ++ [((env.provider (stepAppendUser st u).messages st.calls).2,
             pinExternal st.external_id
               (env.provider (stepAppendUser st u).messages st.calls).2)] := by
      simpa [stepProvider, stepAppendUser] using hpres.1
    have hext : stA.external_id = pinExternal st.external_id
        (env.provider (stepAppendUser st u).messages st.calls).2 := by
      simpa [stepProvider, stepAppendUser] using hpres.2.1
    have hchainA : pinChainOk p0 stA.pins = true := by
      rw [hpins, pinChainOk_snoc, hchain]
      rw [← hlast]
      simp
    have hlastA : stA.external_id = storedAfter p0 stA.pins := by
      rw [hpins, storedAfter_snoc, hext]
    rw [processUser_eq]
    dsimp only
    rw [hR]
    dsimp only
    cases blA with
    | true => exact ⟨hchainA, hlastA⟩
    | false =>
      simp only [Bool.false_eq_true, if_false]
      cases nextA with
      | none => exact ⟨hchainA, hlastA⟩
      | some u2 =>
        dsimp only
        exact ih stA u2 p0 hchainA hlastA

/-! ## The tool-metadata discipline of the transcript -/

/-- Does this message carry any tool-invocation metadata? -/
def hasMeta (m : Message) : Bool :=
  m.server.isSome || m.tool.isSome || m.arguments.isSome

/-- Does this message carry the full `(server, tool, arguments)` triple? -/
def fullMeta (m : Message) : Bool :=
  m.server.isSome && m.tool.isSome && m.arguments.isSome

/-- Do two messages carry the same metadata triple? -/
def sameTriple (p m : Message) : Bool :=
  p.server == m.server && p.tool == m.tool && p.arguments == m.arguments

/-- A user message carrying tool metadata must be a tool result: its
predecessor `p` must be an assistant directive carrying the same triple.
Any other message passes. -/
def isResultShape (p m : Message) : Bool :=
  !(m.role == "user" && hasMeta m)
    || (p.role == "assistant" && hasMeta p && sameTriple p m)

/-- `isResultShape` chained along a list from a given predecessor. -/
def chainOk : Message → List Message → Bool
  | _, [] => true
  | p, m :: rest => isResultShape p m && chainOk m rest

/-- Sentinel predecessor for the head of the transcript: it has no assistant
role, so a metadata-carrying user message may not stand first. -/
def noPrev : Message := ⟨"", Content.str "", none, none, none⟩

/-- The metadata discipline over a transcript: every message carrying any
metadata carries the full triple, and every metadata-carrying user message
immediately follows an assistant directive with the same triple. -/
def metaInv (l : List Message) : Bool :=
  l.all (fun m => !hasMeta m || fullMeta m) && chainOk noPrev l

lemma chainOk_snoc (p : Message) (l : List Message) (m : Message) :
    chainOk p (l ++ [m]) = (chainOk p l && isResultShape (lastD p l) m) := by
  induction l generalizing p with
  | nil => simp [chainOk, lastD]
  | cons x l ih => simp [chainOk, lastD, ih, Bool.and_assoc]

lemma metaInv_snoc (l : List Message) (m : Message) :
    metaInv (l ++ [m]) = true ↔
      (metaInv l = true ∧ (hasMeta m = true → fullMeta m = true) ∧
       isResultShape (lastD noPrev l) m = true) := by
  simp only [metaInv, List.all_append, chainOk_snoc, List.all_cons,
    List.all_nil, Bool.and_eq_true, Bool.or_eq_true, Bool.not_eq_true']
  constructor
  · rintro ⟨⟨h1, h2, -⟩, h3, h4⟩
    refine ⟨⟨h1, h3⟩, ?_, h4⟩
    intro hm
    rcases h2 with h2 | h2
    · rw [hm] at h2
      cases h2
    · exact h2
  · rintro ⟨⟨h1, h3⟩, h2, h4⟩
    refine ⟨⟨h1, ?_, trivial⟩, h3, h4⟩
    by_cases hm : hasMeta m = true
    · exact Or.inr (h2 hm)
    · exact Or.inl (by simpa using hm)

lemma isResultShape_of_noMeta (p m : Message) (h : hasMeta m = false) :
    isResultShape p m = true := by
  simp [isResultShape, h]

lemma isResultShape_of_assistant (p m : Message) (h : m.role = "assistant") :
    isResultShape p m = true := by
  simp [isResultShape, h]

/-- `process_assistant_message` preserves the metadata discipline of the
transcript, and the tool-result user message it hands to the recursive round
(line 180) extends the discipline: it carries the same triple as the
directive just appended. Requires the provider-produced message to have the
assistant role and no pre-existing metadata. -/
lemma pa_metaInv (env : Env) (st : St) (a : Message)
    (hrole : a.role = "assistant") (hm : hasMeta a = false)
    (hinv : metaInv st.messages = true) :
    metaInv (processAssistant env st a).st.messages = true ∧
    (∀ u2, (processAssistant env st a).next = some u2 →
      metaInv ((processAssistant env st a).st.messages ++ [u2]) = true) := by
  by_cases h : contains_tool_use a.content = true
  · cases hx : env.extract (split_content a.content).2 with
    | none =>
      simp [pa_extractFail env st a h hx, hinv]
    | some v =>
      obtain ⟨server_name, tool_name, arguments⟩ := v
      rcases hg : get_user_confirmation env st.answers (split_content a.content).2
          (some server_name) (some tool_name) with ⟨res, k, rest⟩
      have hdir : metaInv (st.messages
          ++ [rewriteDirective a server_name tool_name arguments]) = true := by
        rw [metaInv_snoc]
        refine ⟨hinv, ?_, ?_⟩
        · intro _
          simp [fullMeta, rewriteDirective]
        · exact isResultShape_of_assistant _ _ (by simp [rewriteDirective, hrole])
      match res with
      | none =>
        rw [pa_blocked env st a server_name tool_name arguments k rest h hx hg]
        refine ⟨hdir, ?_⟩
        intro u2 hu2
        cases hu2
      | some false =>
        rw [pa_denied env st a server_name tool_name arguments k rest h hx hg]
        constructor
        · have : st.messages
              ++ [rewriteDirective a server_name tool_name arguments, cancelMsg]
              = (st.messages
                  ++ [rewriteDirective a server_name tool_name arguments])
                ++ [cancelMsg] := by simp
          dsimp only
          rw [this, metaInv_snoc]
          refine ⟨hdir, ?_, ?_⟩
          · intro hcm
            cases (by simp [hasMeta, cancelMsg, create_message] : hasMeta cancelMsg = false) ▸ hcm
          · exact isResultShape_of_noMeta _ _
              (by simp [hasMeta, cancelMsg, create_message])
        · intro u2 hu2
          cases hu2
      | some true =>
        rw [pa_approved env st a server_name tool_name arguments k rest h hx hg]
        refine ⟨hdir, ?_⟩
        intro u2 hu2
        cases hu2
        dsimp only
        rw [metaInv_snoc]
        refine ⟨hdir, ?_, ?_⟩
        · intro _
          simp [fullMeta, toolResultMsg, create_message]
        · rw [lastD_append_singleton]
          simp [isResultShape, toolResultMsg, create_message, rewriteDirective,
            hasMeta, sameTriple, hrole]
  · have h2 : contains_tool_use a.content = false := by
      simpa using h
    rw [pa_noTool env st a h2]
    constructor
    · dsimp only
      rw [metaInv_snoc]
      exact ⟨hinv, fun hma => absurd hma (by simp [hm]),
        isResultShape_of_noMeta _ _ hm⟩
    · intro u2 hu2
      cases hu2

/-- A provider that behaves as the spec's collaborator contract describes:
every returned assistant message has the assistant role and carries no
tool-invocation metadata of its own. -/
def ProviderWellFormed (env : Env) : Prop :=
  ∀ ms n, (env.provider ms n).1.role = "assistant"
    ∧ hasMeta (env.provider ms n).1 = false

/-- Run-level preservation of the metadata discipline: starting from a
transcript that satisfies it and a user message that can be appended to it
(in particular any metadata-free human input), the whole recursive run of
`process_user_message` keeps the transcript satisfying it. -/
lemma metaInv_run (env : Env) (hprov : ProviderWellFormed env) :
    ∀ (fuel : Nat) (st : St) (u : Message),
    metaInv (st.messages ++ [u]) = true →
    metaInv (processUser env fuel st u).st.messages = true := by
  intro fuel
  induction fuel with
  | zero =>
    intro st u hinv
    have hinv1 : metaInv (stepProvider env (stepAppendUser st u)).1.messages
        = true := by
      simpa [stepProvider, stepAppendUser] using hinv
    have hrole : (stepProvider env (stepAppendUser st u)).2.role = "assistant" := by
      simpa [stepProvider] using
        (hprov (stepAppendUser st u).messages (stepAppendUser st u).calls).1
    have hm : hasMeta (stepProvider env (stepAppendUser st u)).2 = false := by
      simpa [stepProvider] using
        (hprov (stepAppendUser st u).messages (stepAppendUser st u).calls).2
    have hpam := pa_metaInv env (stepProvider env (stepAppendUser st u)).1
      (stepProvider env (stepAppendUser st u)).2 hrole hm hinv1
    rcases hR : processAssistant env (stepProvider env (stepAppendUser st u)).1
        (stepProvider env (stepAppendUser st u)).2 with ⟨stA, trA, nextA, blA⟩
    rw [hR] at hpam
    rw [processUser_eq]
    dsimp only
    rw [hR]
    dsimp only
    cases blA with
    | true => exact hpam.1
    | false =>
      simp only [Bool.false_eq_true, if_false]
      cases nextA with
      | none => exact hpam.1
      | some u2 => exact hpam.1
  | succ n ih =>
    intro st u hinv
    have hinv1 : metaInv (stepProvider env (stepAppendUser st u)).1.messages
        = true := by
      simpa [stepProvider, stepAppendUser] using hinv
    have hrole : (stepProvider env (stepAppendUser st u)).2.role = "assistant" := by
      simpa [stepProvider] using
        (hprov (stepAppendUser st u).messages (stepAppendUser st u).calls).1
    have hm : hasMeta (stepProvider env (stepAppendUser st u)).2 = false := by
      simpa [stepProvider] using
        (hprov (stepAppendUser st u).messages (stepAppendUser st u).calls).2
    have hpam := pa_metaInv env (stepProvider env (stepAppendUser st u)).1
      (stepProvider env (stepAppendUser st u)).2 hrole hm hinv1
    rcases hR : processAssistant env (stepProvider env (stepAppendUser st u)).1
        (stepProvider env (stepAppendUser st u)).2 with ⟨stA, trA, nextA, blA⟩
    rw [hR] at hpam
    rw [processUser_eq]
    dsimp only
    rw [hR]
    dsimp only
    cases blA with
    | true => exact hpam.1
    | false =>
      simp only [Bool.false_eq_true, if_false]
      cases nextA with
      | none => exact hpam.1
      | some u2 =>
        dsimp only
        exact ih stA u2 (hpam.2 u2 rfl)

/-! ## Concrete fixtures for witnesses and counterexamples -/

/-- An assistant response carrying exactly one tool-use part. -/
def toolAssistantMsg : Message :=
  ⟨"assistant", Content.parts [Part.text "calling a tool", Part.toolUse "call"],
   none, none, none⟩

/-- A plain-text assistant response. -/
def plainAssistantMsg : Message := ⟨"assistant", Content.str "done", none, none, none⟩

/-- An assistant response whose tool-use part the extractor cannot parse. -/
def badToolMsg : Message :=
  ⟨"assistant", Content.parts [Part.toolUse "garbage"], none, none, none⟩

/-- A human chat input as built by `run` (line 303): role user, no metadata. -/
def helloMsg : Message := ⟨"user", Content.str "hello", none, none, none⟩

/-- A fresh session state. -/
def initialSt : St := ⟨[], none, none, [], 0, []⟩

/-- Environment whose first provider call returns the tool directive with
correlation id `"a"` and whose later calls return plain text with
correlation id `"b"`; the tool `tool1` on server `srv` is auto-confirmed. -/
def toolEnv : Env :=
  { mcp_servers := true
    get_config := fun s => if s == "srv" then some ⟨some ["tool1"]⟩ else none
    extract := fun c =>
      if c == Content.parts [Part.toolUse "call"] then
        some ("srv", "tool1", "argpayload")
      else none
    provider := fun _ n =>
      if n == 0 then (toolAssistantMsg, some "a")
      else (plainAssistantMsg, some "b")
    execute_tool := fun _ _ _ => Content.str "result" }

/-- As `toolEnv`, but the bot configuration has no MCP servers
(`bot_config.mcp_servers` falsy), so the auto-confirm branch is skipped. -/
def noServersEnv : Env := { toolEnv with mcp_servers := false }

/-- As `toolEnv`, but no server has a configuration, so every confirmation
goes through the interactive prompt. -/
def promptEnv : Env := { toolEnv with get_config := fun _ => none }

/-! ## Claims -/

/-- C1, as stated, is false of the code: `persist_chat` runs at line 129 of
every `process_user_message` frame, including the recursive frames spawned
for tool rounds (line 183), so a single human-initiated turn that triggers
one approved tool round commits twice, not once. Concretely: in `toolEnv`,
processing `helloMsg` completes with one tool round and its trace contains
two persist events. -/
theorem c1_counterexample :
    (processUser toolEnv 2 initialSt helloMsg).done = true ∧
    execCount (processUser toolEnv 2 initialSt helloMsg).trace = 1 ∧
    persistCount (processUser toolEnv 2 initialSt helloMsg).trace = 2 ∧
    persistCount (processUser toolEnv 2 initialSt helloMsg).trace ≠ 1 := by
  decide

/-- C1 (amended): the Persistence Synchronizer's commit is invoked exactly
once per `process_user_message` invocation — one for the human-initiated
message plus one for each approved tool round's synthetic user message —
each after that invocation's processing (including its recursion) has
resolved; in particular every completed run ends with a commit, and the
number of commits equals the number of tool executions plus one. -/
theorem c1_persist_per_resolved_frame (env : Env) (fuel : Nat) (st : St)
    (u : Message) (hdone : (processUser env fuel st u).done = true) :
    persistCount (processUser env fuel st u).trace
      = execCount (processUser env fuel st u).trace + 1 ∧
    ∃ pre, (processUser env fuel st u).trace = pre ++ [Ev.persist] :=
  persist_per_frame env fuel st u hdone

theorem c1_witness :
    persistCount (processUser toolEnv 2 initialSt helloMsg).trace
      = execCount (processUser toolEnv 2 initialSt helloMsg).trace + 1 ∧
    ∃ pre, (processUser toolEnv 2 initialSt helloMsg).trace
      = pre ++ [Ev.persist] :=
  c1_persist_per_resolved_frame toolEnv 2 initialSt helloMsg (by decide)

/-- C2, as stated, is false of the code: line 126 `if external_id:` only
guards against falsy returns, so a later provider call returning a
*different* non-null id overwrites the pinned one. Concretely: in `toolEnv`
the first call returns and pins `"a"`, the second call returns `"b"` and the
stored id changes to `"b"`. -/
theorem c2_counterexample :
    (processUser toolEnv 2 initialSt helloMsg).done = true ∧
    (processUser toolEnv 2 initialSt helloMsg).st.pins
      = [(some "a", some "a"), (some "b", some "b")] ∧
    (processUser toolEnv 2 initialSt helloMsg).st.external_id = some "b" ∧
    (some "a" : Option String) ≠ some "b" := by
  decide

/-- C2 (amended): at every provider call of a session, the stored correlation
id after the call is `pinExternal` of the stored id before the call and the
id the call returned: a falsy (null or empty) return leaves the stored id
unchanged — so once pinned it never reverts to null — but a truthy return
always overwrites it, even when a different id was already pinned; the
stored id at any point is the one recorded by the latest call. -/
theorem c2_pin_evolution (env : Env) (fuel : Nat) (st : St) (u : Message)
    (hpins : st.pins = []) :
    pinChainOk st.external_id (processUser env fuel st u).st.pins = true ∧
    (processUser env fuel st u).st.external_id
      = storedAfter st.external_id (processUser env fuel st u).st.pins := by
  refine pins_inv env fuel st u st.external_id ?_ ?_
  · rw [hpins]
    rfl
  · rw [hpins]
    rfl

theorem c2_witness :
    pinChainOk initialSt.external_id
      (processUser toolEnv 2 initialSt helloMsg).st.pins = true ∧
    (processUser toolEnv 2 initialSt helloMsg).st.external_id
      = storedAfter initialSt.external_id
          (processUser toolEnv 2 initialSt helloMsg).st.pins :=
  c2_pin_evolution toolEnv 2 initialSt helloMsg rfl


lemma contains_of_one_toolUse (c : Content) (hone : toolUseCount c = 1) :
    contains_tool_use c = true := by
  cases hac : c with
  | str s =>
    rw [hac] at hone
    simp [toolUseCount] at hone
  | parts ps =>
    rw [hac] at hone
    simp only [toolUseCount] at hone
    simp only [contains_tool_use, List.any_eq_true]
    have hne : ps.filter isToolUse ≠ [] := by
      intro hnil
      rw [hnil] at hone
      simp at hone
    rcases List.exists_mem_of_ne_nil _ hne with ⟨x, hx2⟩
    exact ⟨x, (List.mem_filter.mp hx2).1, (List.mem_filter.mp hx2).2⟩

/-- C3: when the provider answers the freshly appended user message with an
assistant response carrying exactly one tool-use part, the extractor parses
it, and the gate approves, a round of `process_user_message` appends exactly
three messages — the triggering user message, the rewritten assistant
message with tool metadata, and (after the tool execution) the tool-result
user message — and then issues exactly one further provider call before the
turn either terminates or recurses again. -/
theorem c3_tool_round (env : Env) (fuel : Nat) (st : St) (u : Message)
    (a : Message) (ext : Option String)
    (server_name tool_name : String) (arguments : Args) (k : Nat)
    (rest : List String)
    (hp : env.provider (st.messages ++ [u]) st.calls = (a, ext))
    (hone : toolUseCount a.content = 1)
    (hx : env.extract (split_content a.content).2
            = some (server_name, tool_name, arguments))
    (hg : get_user_confirmation env st.answers (split_content a.content).2
            (some server_name) (some tool_name) = (some true, k, rest)) :
    ∃ tail, (processUser env (fuel + 1) st u).trace
      = Ev.append u :: Ev.provider
          :: Ev.append (rewriteDirective a server_name tool_name arguments)
          :: (List.replicate k Ev.prompt
              ++ Ev.exec server_name tool_name arguments
                 :: Ev.append (toolResultMsg env server_name tool_name arguments)
                 :: Ev.provider :: tail) := by
  have hc : contains_tool_use a.content = true := contains_of_one_toolUse _ hone
  have hpa2 : (stepProvider env (stepAppendUser st u)).2 = a := by
    simp [stepProvider, stepAppendUser, hp]
  have hg2 : get_user_confirmation env
      (stepProvider env (stepAppendUser st u)).1.answers
      (split_content a.content).2 (some server_name) (some tool_name)
      = (some true, k, rest) := by
    have hans : (stepProvider env (stepAppendUser st u)).1.answers
        = st.answers := by
      simp [stepProvider, stepAppendUser]
    rw [hans]
    exact hg
  rw [processUser_eq]
  dsimp only
  rw [hpa2, pa_approved env (stepProvider env (stepAppendUser st u)).1 a
    server_name tool_name arguments k rest hc hx hg2]
  dsimp only
  simp only [Bool.false_eq_true, if_false]
  obtain ⟨rest2, hrest2⟩ := processUser_trace_head env fuel
    ({ (stepProvider env (stepAppendUser st u)).1 with
        messages := (stepProvider env (stepAppendUser st u)).1.messages
          ++ [rewriteDirective a server_name tool_name arguments]
        last_printed_text_output := textOf (split_content a.content).1
        answers := rest })
    (toolResultMsg env server_name tool_name arguments)
  rw [hrest2]
  refine ⟨rest2 ++ (if (processUser env fuel
      ({ (stepProvider env (stepAppendUser st u)).1 with
          messages := (stepProvider env (stepAppendUser st u)).1.messages
            ++ [rewriteDirective a server_name tool_name arguments]
          last_printed_text_output := textOf (split_content a.content).1
          answers := rest })
      (toolResultMsg env server_name tool_name arguments)).done = true
      then [Ev.persist] else []), ?_⟩
  simp


theorem c3_witness :
    ∃ tail, (processUser toolEnv (0 + 1) initialSt helloMsg).trace
      = Ev.append helloMsg :: Ev.provider
          :: Ev.append (rewriteDirective toolAssistantMsg "srv" "tool1" "argpayload")
          :: (List.replicate 0 Ev.prompt
              ++ Ev.exec "srv" "tool1" "argpayload"
                 :: Ev.append (toolResultMsg toolEnv "srv" "tool1" "argpayload")
                 :: Ev.provider :: tail) :=
  c3_tool_round toolEnv 0 initialSt helloMsg toolAssistantMsg (some "a")
    "srv" "tool1" "argpayload" 0 [] (by decide) (by decide) (by decide)
    (by decide)

/-- A session state whose pending interactive answer is a refusal. -/
def deniedSt : St := ⟨[], none, none, ["n"], 0, []⟩

/-- C4: when the gate denies a parsed tool directive, exactly one additional
synthetic user message carrying the fixed cancellation notice is appended
after the rewritten assistant message, the Tool Executor is never invoked
(no exec event), and the turn terminates: no recursion is requested and the
trace shows no further provider call. The cancellation message is an
ordinary user message with no tool metadata. -/
theorem c4_denied_cancellation (env : Env) (st : St) (a : Message)
    (server_name tool_name : String) (arguments : Args) (k : Nat)
    (rest : List String)
    (hc : contains_tool_use a.content = true)
    (hx : env.extract (split_content a.content).2
            = some (server_name, tool_name, arguments))
    (hg : get_user_confirmation env st.answers (split_content a.content).2
            (some server_name) (some tool_name) = (some false, k, rest)) :
    (processAssistant env st a).st.messages
      = st.messages
          ++ [rewriteDirective a server_name tool_name arguments, cancelMsg] ∧
    (processAssistant env st a).trace
      = Ev.append (rewriteDirective a server_name tool_name arguments)
          :: (List.replicate k Ev.prompt ++ [Ev.append cancelMsg]) ∧
    (processAssistant env st a).next = none ∧
    (processAssistant env st a).blocked = false ∧
    execCount (processAssistant env st a).trace = 0 ∧
    providerCount (processAssistant env st a).trace = 0 ∧
    cancelMsg.role = "user" ∧
    cancelMsg.content = Content.str "Tool execution cancelled by user." ∧
    hasMeta cancelMsg = false := by
  rw [pa_denied env st a server_name tool_name arguments k rest hc hx hg]
  refine ⟨rfl, rfl, rfl, rfl, ?_, ?_, rfl, rfl, rfl⟩
  · simp [execCount, List.filter_append, List.filter_replicate, isExecEv]
  · simp [providerCount, List.filter_append, List.filter_replicate, isProviderEv]

theorem c4_witness :
    (processAssistant promptEnv deniedSt toolAssistantMsg).st.messages
      = deniedSt.messages
          ++ [rewriteDirective toolAssistantMsg "srv" "tool1" "argpayload",
              cancelMsg] ∧
    (processAssistant promptEnv deniedSt toolAssistantMsg).trace
      = Ev.append (rewriteDirective toolAssistantMsg "srv" "tool1" "argpayload")
          :: (List.replicate 1 Ev.prompt ++ [Ev.append cancelMsg]) ∧
    (processAssistant promptEnv deniedSt toolAssistantMsg).next = none ∧
    (processAssistant promptEnv deniedSt toolAssistantMsg).blocked = false ∧
    execCount (processAssistant promptEnv deniedSt toolAssistantMsg).trace = 0 ∧
    providerCount (processAssistant promptEnv deniedSt toolAssistantMsg).trace
      = 0 ∧
    cancelMsg.role = "user" ∧
    cancelMsg.content = Content.str "Tool execution cancelled by user." ∧
    hasMeta cancelMsg = false :=
  c4_denied_cancellation promptEnv deniedSt toolAssistantMsg
    "srv" "tool1" "argpayload" 1 [] (by decide) (by decide) (by decide)

/-- C5: when the assistant response contains a tool-use part but the
extractor cannot parse a `(server, tool, arguments)` triple out of it
(lines 150-152), the turn aborts silently: the returned state is exactly the
input state — nothing appended, the assistant message not incorporated, the
last text and answer stream untouched — the trace is empty (no gate prompt,
no execution, no provider call), no recursion is requested, and no exception
is modelled: the function returns normally. -/
theorem c5_malformed_silent_abort (env : Env) (st : St) (a : Message)
    (hc : contains_tool_use a.content = true)
    (hx : env.extract (split_content a.content).2 = none) :
    processAssistant env st a = ⟨st, [], none, false⟩ :=
  pa_extractFail env st a hc hx

theorem c5_witness :
    processAssistant toolEnv initialSt badToolMsg
      = ⟨initialSt, [], none, false⟩ :=
  c5_malformed_silent_abort toolEnv initialSt badToolMsg (by decide) (by decide)

/-- C8: an assistant response with zero tool-use parts is appended verbatim
as the single new message; no recursion is requested, the trace shows no
further provider, gate, or executor event, and the last produced text is
updated from the content — the whole string for plain-string content, the
first text-typed part for a sequence (none when the sequence has no text
part). -/
theorem c8_terminal_response (env : Env) (st : St) (a : Message)
    (hc : contains_tool_use a.content = false) :
    (processAssistant env st a).st.messages = st.messages ++ [a] ∧
    (processAssistant env st a).trace = [Ev.append a] ∧
    (processAssistant env st a).next = none ∧
    (processAssistant env st a).blocked = false ∧
    (processAssistant env st a).st.last_printed_text_output = textOf a.content ∧
    (processAssistant env st a).st.answers = st.answers ∧
    (∀ s, a.content = Content.str s → textOf a.content = some s) ∧
    (∀ ps, a.content = Content.parts ps → textOf a.content = firstText ps) := by
  rw [pa_noTool env st a hc]
  refine ⟨rfl, rfl, rfl, rfl, rfl, rfl, ?_, ?_⟩
  · intro s hs
    rw [hs]
    rfl
  · intro ps hps
    rw [hps]
    rfl

theorem c8_witness :
    (processAssistant toolEnv initialSt plainAssistantMsg).st.messages
      = initialSt.messages ++ [plainAssistantMsg] ∧
    (processAssistant toolEnv initialSt plainAssistantMsg).trace
      = [Ev.append plainAssistantMsg] ∧
    (processAssistant toolEnv initialSt plainAssistantMsg).next = none ∧
    (processAssistant toolEnv initialSt plainAssistantMsg).blocked = false ∧
    (processAssistant toolEnv initialSt plainAssistantMsg).st.last_printed_text_output
      = textOf plainAssistantMsg.content ∧
    (processAssistant toolEnv initialSt plainAssistantMsg).st.answers
      = initialSt.answers ∧
    (∀ s, plainAssistantMsg.content = Content.str s
      → textOf plainAssistantMsg.content = some s) ∧
    (∀ ps, plainAssistantMsg.content = Content.parts ps
      → textOf plainAssistantMsg.content = firstText ps) :=
  c8_terminal_response toolEnv initialSt plainAssistantMsg (by decide)


/-- C6, as stated, is false of the code: the auto-confirm branch (lines
98-103) additionally requires `self.bot_config.mcp_servers` to be truthy.
With the tool a member of the server's configured auto-confirm set but a bot
configuration without MCP servers, the gate still runs the interactive
prompt: here it consumes one answer (prompt count 1, not 0). -/
theorem c6_counterexample :
    ((noServersEnv.get_config "srv").map ServerConfig.auto_confirm
        = some (some ["tool1"])) ∧
    get_user_confirmation noServersEnv ["y"] (Content.parts [Part.toolUse "call"])
        (some "srv") (some "tool1") = (some true, 1, []) ∧
    (get_user_confirmation noServersEnv ["y"]
        (Content.parts [Part.toolUse "call"])
        (some "srv") (some "tool1")).2.1 ≠ 0 := by
  decide

/-- C6 (amended): when additionally the bot configuration has MCP servers
and the server and tool names are nonempty, a tool in the server's
configured auto-confirm set makes the gate return true immediately with the
interactive prompt invoked zero times and the answer stream untouched. -/
theorem c6_auto_confirm_no_prompt (env : Env) (answers : List String)
    (c : Content) (server_name tool_name : String) (cfg : ServerConfig)
    (acs : List String)
    (hs : server_name.isEmpty = false) (ht : tool_name.isEmpty = false)
    (hm : env.mcp_servers = true)
    (hcfg : env.get_config server_name = some cfg)
    (hacs : cfg.auto_confirm = some acs)
    (hmem : acs.contains tool_name = true) :
    get_user_confirmation env answers c (some server_name) (some tool_name)
      = (some true, 0, answers) := by
  have hmem2 : tool_name ∈ acs := by
    simpa using hmem
  simp [get_user_confirmation, truthyStr, hs, ht, hm, hcfg, hacs, hmem2]

theorem c6_witness :
    get_user_confirmation toolEnv ["x"] (Content.parts []) (some "srv")
        (some "tool1") = (some true, 0, ["x"]) :=
  c6_auto_confirm_no_prompt toolEnv ["x"] (Content.parts []) "srv" "tool1"
    ⟨some ["tool1"]⟩ ["tool1"] (by decide) (by decide) (by decide) (by decide)
    (by decide) (by decide)

/-- Does a raw answer normalize to an affirmative one? -/
def isYesAnswer (s : String) : Bool :=
  normalizeAnswer s == "y" || normalizeAnswer s == "yes"

/-- Does a raw answer normalize to a negative one? -/
def isNoAnswer (s : String) : Bool :=
  normalizeAnswer s == "n" || normalizeAnswer s == "no"

/-- Does the confirmation loop recognize this raw answer? -/
def recognizable (s : String) : Bool := isYesAnswer s || isNoAnswer s

/-- C7: the interactive confirmation loop re-prompts on every answer that
does not normalize (case-insensitively, after stripping surrounding
whitespace) to one of y/yes/n/no, and returns on the first recognizable
answer: true if it normalizes to y/yes, false if to n/no — consuming exactly
the prefix of unrecognizable answers plus that one answer, so for any input
sequence containing a recognizable answer the loop terminates with the value
determined by the first one. -/
theorem c7_prompt_loop (pre : List String) (a : String) (post : List String)
    (hpre : ∀ b ∈ pre, recognizable b = false)
    (ha : recognizable a = true) :
    promptLoop (pre ++ a :: post)
      = (some (isYesAnswer a), pre.length + 1, post) := by
  induction pre with
  | nil =>
    by_cases hy : (normalizeAnswer a == "y" || normalizeAnswer a == "yes") = true
    · simp [promptLoop, hy, isYesAnswer]
    · have hyf : isYesAnswer a = false := by
        simpa [isYesAnswer] using hy
      have hn : (normalizeAnswer a == "n" || normalizeAnswer a == "no") = true := by
        have h2 := ha
        simp only [recognizable, Bool.or_eq_true] at h2
        rcases h2 with h2 | h2
        · rw [hyf] at h2
          cases h2
        · simpa [isNoAnswer] using h2
      simp [promptLoop, hy, hn, hyf]
  | cons b pre ih =>
    have hb : recognizable b = false := hpre b (List.mem_cons_self b pre)
    have hby : (normalizeAnswer b == "y" || normalizeAnswer b == "yes") = false := by
      have := hb
      simp only [recognizable, isYesAnswer, isNoAnswer, Bool.or_eq_false_iff] at this
      simpa [Bool.or_eq_false_iff] using this.1
    have hbn : (normalizeAnswer b == "n" || normalizeAnswer b == "no") = false := by
      have := hb
      simp only [recognizable, isYesAnswer, isNoAnswer, Bool.or_eq_false_iff] at this
      simpa [Bool.or_eq_false_iff] using this.2
    have hpre2 : ∀ x ∈ pre, recognizable x = false := fun x hx =>
      hpre x (List.mem_cons_of_mem b hx)
    have ih2 := ih hpre2
    simp only [List.cons_append, promptLoop, hby, hbn, Bool.false_eq_true,
      if_false, List.append_eq, ih2, List.length_cons]

theorem c7_witness :
    (∀ b ∈ ["maybe"], recognizable b = false) ∧
    recognizable " YES " = true ∧
    promptLoop (["maybe"] ++ " YES " :: ["n"])
      = (some (isYesAnswer " YES "), (["maybe"] : List String).length + 1,
         ["n"]) :=
  ⟨by decide, by decide,
   c7_prompt_loop ["maybe"] " YES " ["n"] (by decide) (by decide)⟩


/-- C9: in every transcript reachable by the turn controller — starting from
a transcript satisfying the metadata discipline and appending a user message
that preserves it (in particular any metadata-free human input), under a
provider whose responses carry the assistant role and no metadata — the
discipline is preserved: tool metadata appears only as the full
`(server, tool, arguments)` triple, and a user message carrying metadata is
exactly a tool result, immediately following an assistant directive with the
same triple; all other appended messages (human input, terminal assistant
text, the synthetic cancellation notice) carry none. -/
theorem c9_metadata_discipline (env : Env) (hprov : ProviderWellFormed env)
    (fuel : Nat) (st : St) (u : Message)
    (hinv : metaInv (st.messages ++ [u]) = true) :
    metaInv (processUser env fuel st u).st.messages = true :=
  metaInv_run env hprov fuel st u hinv

lemma toolEnv_wf : ProviderWellFormed toolEnv := by
  intro ms n
  by_cases h : n = 0
  · subst h
    simp [toolEnv, hasMeta, toolAssistantMsg]
  · simp [toolEnv, h, hasMeta, plainAssistantMsg]

theorem c9_witness :
    metaInv (initialSt.messages ++ [helloMsg]) = true ∧
    metaInv (processUser toolEnv 2 initialSt helloMsg).st.messages = true :=
  ⟨by decide,
   c9_metadata_discipline toolEnv toolEnv_wf 2 initialSt helloMsg (by decide)⟩

/-- C10: processing a user message — the human one, or a synthetic
tool-result one fed back during recursion — first appends it and overwrites
the last produced text with the message's own content (the whole string, or
the first text-typed part of a sequence, none if a sequence has no text
part), and only then calls the provider: `processUser` invokes the provider
on exactly `stepProvider env (stepAppendUser st u)`, so at the moment of the
call (and until the assistant reply is processed) the last produced text is
the user's content, not the previous assistant output. -/
theorem c10_last_text_from_user (st : St) (u : Message) :
    (stepAppendUser st u).last_printed_text_output = textOf u.content ∧
    (stepAppendUser st u).messages = st.messages ++ [u] ∧
    (∀ env : Env, (stepProvider env (stepAppendUser st u)).1.last_printed_text_output
      = textOf u.content) ∧
    (∀ s, u.content = Content.str s → textOf u.content = some s) ∧
    (∀ ps, u.content = Content.parts ps → textOf u.content = firstText ps) := by
  refine ⟨rfl, rfl, ?_, ?_, ?_⟩
  · intro env
    simp [stepProvider, stepAppendUser]
  · intro s hs
    rw [hs]
    rfl
  · intro ps hps
    rw [hps]
    rfl

end YCli
